import Mathlib

/-!
Verification development for the standard_ebooks_tts streaming narration
pipeline.  The definitions below are shallow embeddings of the TypeScript
source:

* `prepareTTSChunks` embeds `prepareTTSChunks` from
  `src/routes/books/[...id]/+page.svelte` (the narration chunker);
* `AQ` and its operations embed `createAudioQueue` from
  `src/lib/client/ttsWorkerService.ts` (the audio playback queue);
* `Sys` and `stepSys` embed the combined system: the `TTSWorkerService`
  class (request queue / busy flag), the web worker of
  `src/lib/client/worker.ts` (engine guard, streaming, completion), the two
  message channels between them, the audio queue instance and the playback
  controller of the book page.

JavaScript strings are modelled as Lean `String` (with `jsTrim` for
`trim()` and emptiness for JS falsiness of strings), numeric speed is an
opaque `Nat` payload, audio blobs are identified by ghost tags
`(request id, segment index)`.
-/

namespace SE

/-- JS `String.prototype.trim()`: strip leading and trailing whitespace.
Defined structurally over the character list (Lean's own `String.trim`
walks byte positions by well-founded recursion and does not evaluate
inside the kernel). -/
def jsTrim (s : String) : String :=
  ⟨(((s.data.dropWhile Char.isWhitespace).reverse).dropWhile Char.isWhitespace).reverse⟩

/-- JS `a || d` on an optional string: `undefined`/`null` and `""` are falsy. -/
def jsOr (s : Option String) (d : String) : String :=
  match s with
  | none => d
  | some t => if t = "" then d else t

/-! ## Narration chunker (`prepareTTSChunks` in `+page.svelte`) -/

/-- A chapter of fetched book content (`BookContent.chapters` element). -/
structure ChapterC where
  chapterNumber : Int
  chapterTitle : String
  chapterContents : List String
deriving Repr, DecidableEq

/-- Fetched book content. -/
structure BookContentC where
  chapters : List ChapterC
deriving Repr, DecidableEq

/-- A TTS chunk (`TTSChunk` interface in `+page.svelte`). -/
structure TTSChunk where
  text : String
  chapterNumber : Option Int
  isChapterTitle : Bool
deriving Repr, DecidableEq

/-- The title/author chunk pushed first by `prepareTTSChunks`. -/
def titleAuthorChunk (bookTitle bookAuthor : Option String) : TTSChunk :=
  { text := jsOr bookTitle "Book" ++ " by " ++ jsOr bookAuthor "Unknown author" ++ "."
    chapterNumber := none
    isChapterTitle := false }

/-- The chapter-heading chunk pushed for a chapter (with or without title). -/
def chapterHeadChunk (ch : ChapterC) : TTSChunk :=
  if ch.chapterTitle ≠ "" then
    { text := "Chapter " ++ toString ch.chapterNumber ++ ": " ++ ch.chapterTitle
      chapterNumber := some ch.chapterNumber
      isChapterTitle := true }
  else
    { text := "Chapter " ++ toString ch.chapterNumber
      chapterNumber := some ch.chapterNumber
      isChapterTitle := true }

/-- The chunk pushed for one paragraph of a chapter. -/
def paragraphChunk (ch : ChapterC) (p : String) : TTSChunk :=
  { text := p, chapterNumber := some ch.chapterNumber, isChapterTitle := false }

/-- `prepareTTSChunks` from `+page.svelte`, translated statement by
statement: a chunk array built by pushes (`acc ++ [x]`), one title/author
chunk, then per chapter a heading push followed by a guarded loop over
`chapterContents` that pushes a chunk only when `paragraph.trim()` is
truthy. -/
def prepareTTSChunks (bookTitle bookAuthor : Option String)
    (content : BookContentC) : List TTSChunk :=
  let chunks : List TTSChunk := [] ++ [titleAuthorChunk bookTitle bookAuthor]
  content.chapters.foldl
    (fun acc ch =>
      if ch.chapterContents.length > 0 then
        ch.chapterContents.foldl
          (fun acc2 p =>
            if jsTrim p ≠ "" then acc2 ++ [paragraphChunk ch p] else acc2)
          (acc ++ [chapterHeadChunk ch])
      else acc ++ [chapterHeadChunk ch])
    chunks

/-- The chunks contributed by a single chapter: its heading followed by one
chunk per paragraph with non-empty trimmed text, in order. -/
def chapterChunks (ch : ChapterC) : List TTSChunk :=
  chapterHeadChunk ch ::
    (ch.chapterContents.filter (fun p => jsTrim p ≠ "")).map (paragraphChunk ch)

/-! ## Audio playback queue (`createAudioQueue`) -/

/-- State of the audio playback queue closure: the pending list
(`audioQueue`) and the currently playing element (`currentAudio`). -/
structure AQ (α : Type) where
  queue : List α
  current : Option α
deriving Repr, DecidableEq

/-- Observable outputs of an audio-queue operation: a segment began playing
(`new Audio(url); audio.play()`), or the `onQueueEmpty` callback fired. -/
inductive AQOut (α : Type) where
  | played (b : α)
  | queueEmpty
deriving Repr, DecidableEq

/-- `playNext`: with an empty queue, drop `currentAudio` and fire
`onQueueEmpty`; otherwise pop the head and start playing it. -/
def playNextB (aq : AQ α) : AQ α × List (AQOut α) :=
  match aq.queue with
  | [] => (⟨[], none⟩, [.queueEmpty])
  | b :: rest => (⟨rest, some b⟩, [.played b])

/-- `addToQueue`: append the blob; if nothing is currently playing, start
playing via `playNext`. -/
def addToQueue (aq : AQ α) (b : α) : AQ α × List (AQOut α) :=
  let aq' : AQ α := ⟨aq.queue ++ [b], aq.current⟩
  if aq.current.isNone then playNextB aq' else (aq', [])

/-- The `audio.onended` handler: when a playing segment ends naturally, play
the next one.  The event presupposes a currently playing segment. -/
def onEnded (aq : AQ α) : AQ α × List (AQOut α) :=
  if aq.current.isSome then playNextB aq else (aq, [])

/-- The `audio.play().catch` handler: a segment that failed to start is
released and the queue advances, exactly like a natural end. -/
def onFailed (aq : AQ α) : AQ α × List (AQOut α) :=
  if aq.current.isSome then playNextB aq else (aq, [])

/-- `clearQueue`: empty the pending queue and pause/drop the current
segment.  Fires no callback. -/
def clearQueue (_aq : AQ α) : AQ α :=
  ⟨[], none⟩

/-- Events driving the standalone audio queue: the three public methods plus
the two segment-level DOM events. -/
inductive AQEv where
  | add (b : Nat)
  | playNextCall
  | ended
  | failed
  | clear
deriving Repr, DecidableEq

/-- One standalone audio-queue step. -/
def stepAQ (aq : AQ Nat) : AQEv → AQ Nat × List (AQOut Nat)
  | .add b => addToQueue aq b
  | .playNextCall => playNextB aq
  | .ended => onEnded aq
  | .failed => onFailed aq
  | .clear => (clearQueue aq, [])

/-- Run the standalone audio queue over an event list, collecting outputs. -/
def runAQ : AQ Nat → List AQEv → AQ Nat × List (AQOut Nat)
  | aq, [] => (aq, [])
  | aq, e :: es =>
    let (aq', out) := stepAQ aq e
    let (aq'', outs) := runAQ aq' es
    (aq'', out ++ outs)

/-- The initial (fresh) audio queue. -/
def aqInit : AQ Nat := ⟨[], none⟩

/-! ## Combined system: TTSWorkerService + worker + channels + controller

The service (`TTSWorkerService`), the web worker, the two FIFO message
channels between them, the page's audio queue instance and the playback
controller state of `+page.svelte` are combined into one state `Sys`,
stepped by environment events `Ev` (user actions, message deliveries, DOM
audio events, engine progress).  Audio blobs are identified by the ghost
tag `(rid, idx)`: the submission id of the request and the index of the
segment within it.  `submitN`, `sentN`, `answeredN`, `emitted`, `playedL`
and `log` are ghost observers: they record history and influence nothing. -/

/-- The exact transient-error string compared by the service. -/
def busyErrMsg : String := "TTS: The session has already started"

/-- The error used by `generateSpeech`/`processNextInQueue` without worker. -/
def notInitMsg : String := "Worker not initialized. Call initialize() first."

/-- The worker's empty-text validation error. -/
def emptyTextMsg : String := "Empty text provided for TTS processing"

/-- The worker's unknown-voice validation error. -/
def invalidVoiceMsg (v : String) : String := "Invalid voice selected: " ++ v

/-- An entry of the service's `requestQueue` (the completion handle is the
ghost id `rid`). -/
structure Req where
  rid : Nat
  text : String
  voice : String
  speed : Nat
deriving Repr, DecidableEq

/-- `TTSWorkerService` state: worker reference, busy flag, pending FIFO and
the number of pending `setTimeout` backoff callbacks. -/
structure Svc where
  workerPresent : Bool
  isBusy : Bool
  requestQueue : List Req
  timers : Nat
deriving Repr, DecidableEq

/-- Worker-side processing phase.  `emitting rid text k` is an accepted
session that has emitted `k` segments; `finishing rid` is the window after
the worker posted `complete`/its error but before the handler's `finally`
reset `isProcessing` (the window that produces the transient busy error). -/
inductive WPhase where
  | idle
  | emitting (rid : Nat) (text : String) (k : Nat)
  | finishing (rid : Nat)
deriving Repr, DecidableEq

/-- Worker state: available voices and the processing phase
(`isProcessing` is true exactly when the phase is not `idle`). -/
structure Wrk where
  voices : List String
  phase : WPhase
deriving Repr, DecidableEq

/-- A message posted to the worker (`WorkerInMessage`, plus the ghost id of
the request it carries). -/
structure WIn where
  rid : Nat
  text : String
  voice : String
  speed : Nat
deriving Repr, DecidableEq

/-- A message posted by the worker (`WorkerOutMessage`); stream payloads
carry the ghost segment tag. -/
inductive WOut where
  | device (d : String)
  | ready (voices : List String) (d : String)
  | stream (rid idx : Nat) (text : String)
  | complete (hasAudio : Bool)
  | error (e : String)
deriving Repr, DecidableEq

/-- Playback-controller state of the book page. -/
structure Ctrl where
  paragraphQueue : List TTSChunk
  currentParagraphIndex : Nat
  isPlaying : Bool
  isPaused : Bool
  isGenerating : Bool
  streamedText : String
  errorMsg : String
  selectedVoice : String
  speedSetting : Nat
deriving Repr, DecidableEq

/-- Ghost log entries: observable actions of a run. -/
inductive Act where
  | queuedReq (rid : Nat) (text : String)
  | sent (rid : Nat)
  | resolved (rid : Nat)
  | rejected (rid : Nat) (msg : String)
  | errCb (msg : String)
  | completeCb
  | streamCb (text : String)
  | playedA (seg : Nat × Nat)
  | playbackStartedCb
  | queueEmptyCb
deriving Repr, DecidableEq

/-- The combined system state. -/
structure Sys where
  ctrl : Ctrl
  svc : Svc
  wrk : Wrk
  chanToW : List WIn
  chanToS : List WOut
  aq : AQ (Nat × Nat)
  submitN : Nat
  sentN : Nat
  answeredN : Nat
  emitted : List (Nat × Nat)
  playedL : List (Nat × Nat)
  log : List Act
deriving Repr, DecidableEq

/-- The page's `onError` callback (`config.onError`): clear the generation
flag and surface a prefixed message. -/
def fireErrorCb (s : Sys) (msg : String) : Sys :=
  { s with
    ctrl := { s.ctrl with isGenerating := false, errorMsg := "TTS Error: " ++ msg },
    log := s.log ++ [Act.errCb msg] }

/-- The page's `onQueueEmpty` callback: end-of-book detection. -/
def fireQueueEmptyCb (s : Sys) : Sys :=
  let s := { s with log := s.log ++ [Act.queueEmptyCb] }
  if s.ctrl.isPlaying ∧ ¬s.ctrl.isPaused ∧
      s.ctrl.paragraphQueue.length ≤ s.ctrl.currentParagraphIndex then
    { s with ctrl := { s.ctrl with isPlaying := false, isGenerating := false } }
  else s

/-- `TTSWorkerService.processNextInQueue`, fuelled for the (dead in
practice) worker-absent recursion: return if the queue is empty or busy;
otherwise shift the head, set the busy flag, and post it to the worker,
resolving its handle — or, if the worker is absent, report the error,
clear the busy flag, reject the handle and recurse. -/
def pniq : Nat → Sys → Sys
  | 0, s => s
  | fuel + 1, s =>
    match s.svc.requestQueue with
    | [] => s
    | r :: rest =>
      if s.svc.isBusy then s
      else
        let s1 := { s with svc := { s.svc with isBusy := true, requestQueue := rest } }
        if s1.svc.workerPresent then
          { s1 with
            chanToW := s1.chanToW ++ [⟨r.rid, r.text, r.voice, r.speed⟩],
            sentN := s1.sentN + 1,
            log := s1.log ++ [Act.sent r.rid, Act.resolved r.rid] }
        else
          let s2 := fireErrorCb { s1 with svc := { s1.svc with isBusy := false } } notInitMsg
          let s3 := { s2 with log := s2.log ++ [Act.rejected r.rid notInitMsg] }
          pniq fuel s3

/-- `TTSWorkerService.generateSpeech`: reject immediately when the worker
is absent (queue and busy flag untouched); otherwise enqueue and, when not
busy, process the queue.  The boolean reports an immediate rejection. -/
def generateSpeechCore (s : Sys) (text voice : String) (speed : Nat) :
    Sys × Bool :=
  if s.svc.workerPresent = false then
    let rid := s.submitN
    let s1 := { s with submitN := s.submitN + 1 }
    let s2 := fireErrorCb s1 notInitMsg
    ({ s2 with log := s2.log ++ [Act.rejected rid notInitMsg] }, true)
  else
    let r : Req := ⟨s.submitN, text, voice, speed⟩
    let s1 := { s with
      submitN := s.submitN + 1,
      svc := { s.svc with requestQueue := s.svc.requestQueue ++ [r] },
      log := s.log ++ [Act.queuedReq r.rid text] }
    if s1.svc.isBusy then (s1, false)
    else (pniq s1.svc.requestQueue.length s1, false)

/-- `processNextParagraph` of the page, fuelled for the empty-chunk skip
recursion. -/
def pnp : Nat → Sys → Sys
  | 0, s => s
  | fuel + 1, s =>
    let c := s.ctrl
    if c.paragraphQueue.length ≤ c.currentParagraphIndex then
      { s with ctrl := { c with isPlaying := false, isGenerating := false } }
    else if c.isPaused then s
    else
      let chunk := c.paragraphQueue.getD c.currentParagraphIndex ⟨"", none, false⟩
      let s1 := { s with ctrl := { c with isGenerating := true, streamedText := chunk.text } }
      if jsTrim chunk.text = "" then
        pnp fuel
          { s1 with ctrl := { s1.ctrl with
              currentParagraphIndex := s1.ctrl.currentParagraphIndex + 1 } }
      else
        let res := generateSpeechCore s1 chunk.text c.selectedVoice c.speedSetting
        if res.2 then
          { res.1 with ctrl := { res.1.ctrl with errorMsg := notInitMsg, isGenerating := false } }
        else res.1

/-- `preloadNextParagraph` of the page: advance to the next chunk and
submit it (its catch sets only the error message). -/
def preloadNextParagraph (s : Sys) : Sys :=
  let c := s.ctrl
  if c.isPaused then s
  else
    let nextIndex := c.currentParagraphIndex + 1
    if c.paragraphQueue.length ≤ nextIndex then s
    else
      let chunk := c.paragraphQueue.getD nextIndex ⟨"", none, false⟩
      let s1 := { s with ctrl := { c with
          currentParagraphIndex := nextIndex, streamedText := chunk.text } }
      if jsTrim chunk.text = "" then
        pnp (s1.ctrl.paragraphQueue.length + 1)
          { s1 with ctrl := { s1.ctrl with
              currentParagraphIndex := s1.ctrl.currentParagraphIndex + 1 } }
      else
        let res := generateSpeechCore s1 chunk.text c.selectedVoice c.speedSetting
        if res.2 then { res.1 with ctrl := { res.1.ctrl with errorMsg := notInitMsg } }
        else res.1

/-- Fold an audio-queue output into the system: record a play, or run the
page's `onQueueEmpty` callback. -/
def applyAQOut (s : Sys) : AQOut (Nat × Nat) → Sys
  | .played seg => { s with playedL := s.playedL ++ [seg], log := s.log ++ [Act.playedA seg] }
  | .queueEmpty => fireQueueEmptyCb s

/-- Fold a list of audio-queue outputs into the system. -/
def applyAQOuts (s : Sys) (outs : List (AQOut (Nat × Nat))) : Sys :=
  outs.foldl applyAQOut s

/-- The `audio.onplay` event: fires the page's `onPlaybackStarted`
callback, which preloads the next paragraph under the page's guard. -/
def onStartedSys (s : Sys) : Sys :=
  if s.aq.current.isSome then
    let s1 := { s with log := s.log ++ [Act.playbackStartedCb] }
    if s1.ctrl.isPlaying ∧ ¬s1.ctrl.isPaused ∧
        s1.ctrl.currentParagraphIndex < s1.ctrl.paragraphQueue.length - 1 then
      preloadNextParagraph s1
    else s1
  else s

/-- The service's `worker.onmessage` dispatch, with the page's callbacks
wired in (`onStream` adds to the audio queue; `complete`/`error` clear the
busy flag and continue the queue; the exact transient message defers the
continuation behind a backoff timer). -/
def recvMsg (s : Sys) (m : WOut) : Sys :=
  match m with
  | .device _ => s
  | .ready _ _ => s
  | .stream rid idx text =>
    let s1 := { s with ctrl := { s.ctrl with streamedText := text },
                       log := s.log ++ [Act.streamCb text] }
    let res := addToQueue s1.aq (rid, idx)
    applyAQOuts { s1 with aq := res.1 } res.2
  | .complete _ =>
    let s1 := { s with ctrl := { s.ctrl with isGenerating := false },
                       log := s.log ++ [Act.completeCb] }
    let s2 := { s1 with svc := { s1.svc with isBusy := false },
                        answeredN := s1.answeredN + 1 }
    pniq s2.svc.requestQueue.length s2
  | .error e =>
    let s1 := fireErrorCb s e
    let s2 := { s1 with svc := { s1.svc with isBusy := false },
                        answeredN := s1.answeredN + 1 }
    if e = busyErrMsg then
      { s2 with svc := { s2.svc with timers := s2.svc.timers + 1 } }
    else
      pniq s2.svc.requestQueue.length s2

/-- The worker's message listener prologue: validations, the
`isProcessing` guard, then session start. -/
def wrecv (s : Sys) (m : WIn) : Sys :=
  if jsTrim m.text = "" then
    { s with chanToS := s.chanToS ++ [WOut.error emptyTextMsg] }
  else if ¬(s.wrk.voices.contains m.voice) then
    { s with chanToS := s.chanToS ++ [WOut.error (invalidVoiceMsg m.voice)] }
  else if s.wrk.phase ≠ .idle then
    { s with chanToS := s.chanToS ++ [WOut.error busyErrMsg] }
  else
    { s with wrk := { s.wrk with phase := .emitting m.rid m.text 0 } }

/-- Environment events of the combined system. -/
inductive Ev where
  | submit (text voice : String) (speed : Nat)
  | play (chunks : List TTSChunk)
  | pause
  | resume
  | stop
  | terminate
  | timerFire
  | workerRecv
  | engineEmit
  | engineComplete
  | handlerFinish
  | serviceRecv
  | segStarted
  | segEnded
  | segFailed
deriving Repr, DecidableEq

/-- One step of the combined system. -/
def stepSys (s : Sys) : Ev → Sys
  | .submit text voice speed => (generateSpeechCore s text voice speed).1
  | .play chunks =>
    if s.ctrl.isGenerating then s
    else
      let c1 := { s.ctrl with streamedText := "", errorMsg := "",
                              isGenerating := true, isPlaying := true,
                              isPaused := false }
      let s1 := { s with ctrl := c1, aq := clearQueue s.aq }
      let s2 := { s1 with ctrl := { s1.ctrl with
          paragraphQueue := chunks, currentParagraphIndex := 0 } }
      pnp (s2.ctrl.paragraphQueue.length + 1) s2
  | .pause =>
    if s.ctrl.isPlaying then
      { s with ctrl := { s.ctrl with isPaused := true }, aq := clearQueue s.aq }
    else s
  | .resume =>
    if s.ctrl.isPlaying ∧ s.ctrl.isPaused then
      pnp (s.ctrl.paragraphQueue.length + 1)
        { s with ctrl := { s.ctrl with isPaused := false } }
    else s
  | .stop =>
    { s with
      ctrl := { s.ctrl with isPlaying := false, isPaused := false,
                            isGenerating := false, streamedText := "",
                            currentParagraphIndex := 0 },
      aq := clearQueue s.aq }
  | .terminate =>
    { s with
      svc := { s.svc with workerPresent := false, isBusy := false, requestQueue := [] },
      wrk := { s.wrk with phase := .idle },
      chanToW := [], chanToS := [] }
  | .timerFire =>
    if s.svc.timers = 0 then s
    else
      let s1 := { s with svc := { s.svc with timers := s.svc.timers - 1 } }
      pniq s1.svc.requestQueue.length s1
  | .workerRecv =>
    match s.chanToW with
    | [] => s
    | m :: rest => wrecv { s with chanToW := rest } m
  | .engineEmit =>
    match s.wrk.phase with
    | .emitting rid text k =>
      { s with
        wrk := { s.wrk with phase := .emitting rid text (k + 1) },
        chanToS := s.chanToS ++ [WOut.stream rid k text],
        emitted := s.emitted ++ [(rid, k)] }
    | _ => s
  | .engineComplete =>
    match s.wrk.phase with
    | .emitting rid _ k =>
      { s with
        wrk := { s.wrk with phase := .finishing rid },
        chanToS := s.chanToS ++ [WOut.complete (0 < k)] }
    | _ => s
  | .handlerFinish =>
    match s.wrk.phase with
    | .finishing _ => { s with wrk := { s.wrk with phase := .idle } }
    | _ => s
  | .serviceRecv =>
    match s.chanToS with
    | [] => s
    | m :: rest => recvMsg { s with chanToS := rest } m
  | .segStarted => onStartedSys s
  | .segEnded =>
    let res := onEnded s.aq
    applyAQOuts { s with aq := res.1 } res.2
  | .segFailed =>
    let res := onFailed s.aq
    applyAQOuts { s with aq := res.1 } res.2

/-- The initial system: worker initialized and ready, everything idle. -/
def sysInit : Sys :=
  { ctrl := { paragraphQueue := [], currentParagraphIndex := 0,
              isPlaying := false, isPaused := false, isGenerating := false,
              streamedText := "", errorMsg := "",
              selectedVoice := "af_heart", speedSetting := 1 },
    svc := { workerPresent := true, isBusy := false, requestQueue := [], timers := 0 },
    wrk := { voices := ["af_heart"], phase := .idle },
    chanToW := [], chanToS := [], aq := ⟨[], none⟩,
    submitN := 0, sentN := 0, answeredN := 0,
    emitted := [], playedL := [], log := [] }

/-- Run the combined system from the initial state. -/
def runSys (evs : List Ev) : Sys := evs.foldl stepSys sysInit

/-! ## Observers, invariants and concrete scenarios -/

/-- Strict generation order on segment tags: earlier request, or same
request and earlier segment index. -/
def segLT (a b : Nat × Nat) : Prop :=
  a.1 < b.1 ∨ (a.1 = b.1 ∧ a.2 < b.2)

instance : DecidableRel segLT := fun a b => by
  unfold segLT; infer_instance

/-- The segment tags of the stream messages sitting in the worker→service
channel, in channel order. -/
def chanSegs (l : List WOut) : List (Nat × Nat) :=
  l.filterMap fun m =>
    match m with
    | .stream r i _ => some (r, i)
    | _ => none

/-- The number of answer messages (complete or error) in the
worker→service channel. -/
def answersIn (l : List WOut) : Nat :=
  (l.filter fun m =>
    match m with
    | .complete _ => true
    | .error _ => true
    | _ => false).length

/-- 1 while an accepted session has not yet posted its answer. -/
def phasePending : WPhase → Nat
  | .emitting _ _ _ => 1
  | _ => 0

/-- The ghost request ids that are dispatched-but-undelivered or still
pending in the service queue, in dispatch order. -/
def futureRids (s : Sys) : List Nat :=
  s.chanToW.map WIn.rid ++ s.svc.requestQueue.map Req.rid

/-- Text units currently inside the synthesis pipeline: the in-flight
request (busy flag) plus the pending queue. -/
def pipelineUnits (s : Sys) : Nat :=
  s.svc.requestQueue.length + (if s.svc.isBusy then 1 else 0)

/-- The texts of the requests enqueued so far, from the ghost log. -/
def queuedTexts (l : List Act) : List String :=
  l.filterMap fun a =>
    match a with
    | .queuedReq _ t => some t
    | _ => none

/-- The ids of requests posted to the worker so far, from the ghost log. -/
def sentRids (l : List Act) : List Nat :=
  l.filterMap fun a =>
    match a with
    | .sent r => some r
    | _ => none

/-- True when the log records a rejected completion handle. -/
def hasRejected (l : List Act) : Bool :=
  l.any fun a =>
    match a with
    | .rejected _ _ => true
    | _ => false

/-- Single-in-flight invariant of the service (claim C2): the worker is
present, the busy flag tracks exactly whether one dispatched request is
unanswered, and every dispatched request is accounted for once in the
pipeline (undelivered message, running session, or unread answer). -/
def InvC2 (s : Sys) : Prop :=
  s.svc.workerPresent = true ∧
  (s.svc.isBusy = true → s.sentN = s.answeredN + 1) ∧
  (s.svc.isBusy = false → s.sentN = s.answeredN) ∧
  s.sentN = s.answeredN + s.chanToW.length + phasePending s.wrk.phase +
    answersIn s.chanToS

/-- Worker-phase bookkeeping of the pipeline-ordering invariant: the
emitted history is compatible with the current session, and every future
request id is strictly newer than the running session. -/
def phaseOk (ph : WPhase) (emitted : List (Nat × Nat)) (fut : List Nat)
    (n : Nat) : Prop :=
  match ph with
  | .idle => ∀ p ∈ emitted, ∀ x ∈ fut, p.1 < x
  | .emitting rid _ k =>
      (∀ p ∈ emitted, p.1 < rid ∨ (p.1 = rid ∧ p.2 < k)) ∧
      (∀ x ∈ fut, rid < x) ∧ rid < n
  | .finishing rid =>
      (∀ p ∈ emitted, p.1 ≤ rid) ∧
      (∀ x ∈ fut, rid < x) ∧ rid < n

/-- Ordering invariant of the pipeline (claim C1).  The emitted-segment
history is strictly `segLT`-sorted, the segments now in flight
(played ++ audio queue ++ channel) reconstruct it exactly, and the rid
bookkeeping keeps future sessions strictly newer than everything
already emitted. -/
def InvC1 (s : Sys) : Prop :=
  s.svc.workerPresent = true ∧
  s.playedL ++ s.aq.queue ++ chanSegs s.chanToS = s.emitted ∧
  List.Pairwise segLT s.emitted ∧
  List.Pairwise (· < ·) (futureRids s) ∧
  (∀ x ∈ futureRids s, x < s.submitN) ∧
  (∀ p ∈ s.emitted, p.1 < s.submitN) ∧
  phaseOk s.wrk.phase s.emitted (futureRids s) s.submitN

/-- Events allowed in the runs claim C1 speaks about: everything except
the operations that clear the playback queue (`handlePlay`, `handlePause`,
`handleStop`) or tear the system down (`terminate`).  The claim itself
excludes stopped/cleared sessions. -/
def BenignC1 : Ev → Prop
  | .play _ => False
  | .pause => False
  | .resume => False
  | .stop => False
  | .terminate => False
  | _ => True

instance : DecidablePred BenignC1 := fun e => by
  unfold BenignC1; cases e <;> infer_instance

/-- Scenario for claim C3: request Z completes; A is dispatched inside the
worker's finishing window and is answered with the transient busy error
while B waits in the queue; the backoff timer then fires. -/
def c3trace : List Ev :=
  [ .submit "Z" "af_heart" 1
  , .workerRecv
  , .engineEmit
  , .engineComplete
  , .submit "A" "af_heart" 1
  , .submit "B" "af_heart" 1
  , .serviceRecv
  , .serviceRecv
  , .workerRecv
  , .handlerFinish
  , .serviceRecv
  , .timerFire ]

/-- Scenario for claim C4, step one: a single submission is dispatched
immediately; the worker has not yet received anything. -/
def c4t1 : List Ev := [.submit "x" "bad_voice" 1]

/-- Scenario for claim C4, full: the worker answers the dispatched request
with a (non-transient) validation error which the service then receives. -/
def c4trace : List Ev := c4t1 ++ [.workerRecv, .serviceRecv]

/-- State for the claim C4 witness: a dispatched request whose error
answer is waiting in the channel while another request is queued. -/
def c4wtrace : List Ev :=
  [.submit "x" "bad_voice" 1, .workerRecv, .submit "y" "af_heart" 1]

/-- A plain paragraph chunk used in controller scenarios. -/
def uchunk (t : String) : TTSChunk := ⟨t, none, false⟩

/-- Scenario for claim C6: one playing unit whose segments each trigger a
preload; after two segment starts, three units are in the pipeline. -/
def c6trace : List Ev :=
  [ .play [uchunk "u0", uchunk "u1", uchunk "u2", uchunk "u3"]
  , .workerRecv
  , .engineEmit, .engineEmit, .engineEmit
  , .engineComplete
  , .serviceRecv
  , .segStarted
  , .serviceRecv
  , .segEnded
  , .segStarted ]

/-- The C6 scenario stopped just before its final playback-start event. -/
def c6pre : List Ev := c6trace.dropLast

/-- Scenario for claim C7: play one unit, the engine emits a segment, the
user stops, and the stale stream message is delivered afterwards. -/
def c7trace : List Ev :=
  [ .play [uchunk "u0"]
  , .workerRecv
  , .engineEmit
  , .stop
  , .serviceRecv ]

/-- A controller state that is mid-playback (for the C9 witness). -/
def sysPlaying : Sys :=
  { sysInit with ctrl := { sysInit.ctrl with isPlaying := true } }

/-- The system right after `terminate` (for the C10 witness). -/
def sysTerm : Sys := stepSys sysInit Ev.terminate

/-- Submission burst used by the C2 witness. -/
def c2evs : List Ev :=
  [ .submit "a" "af_heart" 1
  , .submit "b" "af_heart" 1
  , .workerRecv
  , .engineEmit
  , .engineComplete
  , .serviceRecv
  , .serviceRecv ]

/-- Overlapped two-request run used by the C1 witness: the second unit is
synthesized while the first one is still being played back. -/
def c1evs : List Ev :=
  [ .submit "a" "af_heart" 1
  , .submit "b" "af_heart" 1
  , .workerRecv
  , .engineEmit
  , .serviceRecv
  , .segStarted
  , .engineEmit
  , .engineComplete
  , .handlerFinish
  , .serviceRecv
  , .serviceRecv
  , .workerRecv
  , .engineEmit
  , .engineComplete
  , .serviceRecv
  , .segEnded
  , .segEnded
  , .segEnded ]

/-- The book of the C5 scenario sentence. -/
def c5book : BookContentC :=
  ⟨[⟨1, "Intro", ["Hello world.", "  ", "Second line."]⟩]⟩

/-! ## Claim C5: the narration chunker -/

theorem paraFold_eq (ch : ChapterC) (ps : List String) (acc : List TTSChunk) :
    ps.foldl
      (fun acc2 p => if jsTrim p ≠ "" then acc2 ++ [paragraphChunk ch p] else acc2)
      acc =
      acc ++ (ps.filter (fun p => jsTrim p ≠ "")).map (paragraphChunk ch) := by
  induction ps generalizing acc with
  | nil => simp
  | cons p ps ih =>
    rw [List.foldl_cons]
    by_cases h : jsTrim p = ""
    · rw [if_neg (by simp [h]), ih]
      congr 1
      rw [List.filter_cons, if_neg (by simp [h])]
    · rw [if_pos h, ih]
      rw [List.filter_cons, if_pos (by simpa using h)]
      simp

theorem chapFold_eq (chs : List ChapterC) (acc : List TTSChunk) :
    chs.foldl
      (fun acc ch =>
        if ch.chapterContents.length > 0 then
          ch.chapterContents.foldl
            (fun acc2 p =>
              if jsTrim p ≠ "" then acc2 ++ [paragraphChunk ch p] else acc2)
            (acc ++ [chapterHeadChunk ch])
        else acc ++ [chapterHeadChunk ch])
      acc =
      acc ++ chs.flatMap chapterChunks := by
  induction chs generalizing acc with
  | nil => simp
  | cons ch chs ih =>
    simp only [List.foldl_cons, List.flatMap_cons]
    by_cases h : ch.chapterContents.length > 0
    · rw [if_pos h, paraFold_eq, ih, chapterChunks]
      simp
    · rw [if_neg h, ih, chapterChunks]
      have hnil : ch.chapterContents = [] := by
        cases hc : ch.chapterContents with
        | nil => rfl
        | cons a l => rw [hc] at h; simp at h
      simp [hnil]

/-- C5: `prepareTTSChunks` returns exactly one title/author unit first,
then for each chapter in document order one heading unit followed by one
unit per paragraph whose trimmed text is non-empty, in paragraph order;
empty/whitespace-only paragraphs yield no unit.  A chapter with zero
non-empty paragraphs contributes exactly its heading unit, and the book
`{chapters:[{chapterNumber:1, chapterTitle:"Intro",
chapterContents:["Hello world.","  ","Second line."]}]}` yields the four
units of the spec scenario. -/
theorem c5_prepareTTSChunks_spec :
    (∀ (bt ba : Option String) (content : BookContentC),
      prepareTTSChunks bt ba content =
        titleAuthorChunk bt ba :: content.chapters.flatMap chapterChunks) ∧
    (∀ ch : ChapterC, (∀ p ∈ ch.chapterContents, jsTrim p = "") →
      chapterChunks ch = [chapterHeadChunk ch]) ∧
    (∀ bt ba : Option String, prepareTTSChunks bt ba c5book =
      [titleAuthorChunk bt ba,
       ⟨"Chapter 1: Intro", some 1, true⟩,
       ⟨"Hello world.", some 1, false⟩,
       ⟨"Second line.", some 1, false⟩]) := by
  have h1 : ∀ (bt ba : Option String) (content : BookContentC),
      prepareTTSChunks bt ba content =
        titleAuthorChunk bt ba :: content.chapters.flatMap chapterChunks := by
    intro bt ba content
    unfold prepareTTSChunks
    rw [chapFold_eq]
    simp
  refine ⟨h1, ?_, ?_⟩
  · intro ch hall
    unfold chapterChunks
    have : ch.chapterContents.filter (fun p => jsTrim p ≠ "") = [] := by
      rw [List.filter_eq_nil_iff]
      intro p hp
      simp [hall p hp]
    rw [this]
    simp
  · intro bt ba
    rw [h1]
    rw [show c5book.chapters.flatMap chapterChunks =
      [(⟨"Chapter 1: Intro", some 1, true⟩ : TTSChunk),
       ⟨"Hello world.", some 1, false⟩,
       ⟨"Second line.", some 1, false⟩] from by decide]

/-- C5 witness: the boundary clause of `c5_prepareTTSChunks_spec` applied
to a concrete chapter whose paragraphs are all whitespace-only. -/
theorem c5_witness :
    (∀ p ∈ (⟨7, "", ["  ", ""]⟩ : ChapterC).chapterContents, jsTrim p = "") ∧
    chapterChunks ⟨7, "", ["  ", ""]⟩ = [chapterHeadChunk ⟨7, "", ["  ", ""]⟩] :=
  ⟨by decide, c5_prepareTTSChunks_spec.2.1 ⟨7, "", ["  ", ""]⟩ (by decide)⟩

/-! ## Claim C8: when `onQueueEmpty` fires -/

/-- C8 counterexample: on a fresh audio queue a single direct `playNext`
call (one of the sequences the claim quantifies over) fires `onQueueEmpty`
even though no segment was ever queued, played or finished — so the
callback does fire in a situation other than "the last segment finishes
with nothing queued". -/
theorem c8_counterexample :
    runAQ aqInit [AQEv.playNextCall] = (⟨[], none⟩, [AQOut.queueEmpty]) := by
  decide

/-- C8 amended: `onQueueEmpty` fires exactly when `playNext` executes with
an empty pending queue — on a segment's natural end or start-failure with
nothing queued, or on a direct `playNext` call with nothing queued (even if
nothing ever played); it never fires from `addToQueue` or `clearQueue`. -/
theorem c8_amended (aq : AQ Nat) (e : AQEv) :
    AQOut.queueEmpty ∈ (stepAQ aq e).2 ↔
      ((e = AQEv.playNextCall ∧ aq.queue = []) ∨
       ((e = AQEv.ended ∨ e = AQEv.failed) ∧
         aq.current.isSome = true ∧ aq.queue = [])) := by
  rcases aq with ⟨q, c⟩
  cases e <;> cases c <;> cases q <;>
    simp [stepAQ, addToQueue, playNextB, onEnded, onFailed, clearQueue]

/-! ## Claim C9: pause -/

/-- C9 counterexample: invoking pause in the initial (Idle, not playing)
state does not transition the controller to Paused — `handlePause` returns
early when `isPlaying` is false, leaving the state entirely unchanged. -/
theorem c9_counterexample :
    stepSys sysInit Ev.pause = sysInit ∧
    sysInit.ctrl.isPaused = false ∧ sysInit.ctrl.isPlaying = false :=
  ⟨rfl, rfl, rfl⟩

/-- C9 amended: pause never touches the synthesis side (service state,
channels, worker state are unchanged, so no in-flight synthesis request is
cancelled); when the controller is playing it transitions to Paused and
clears the audio playback queue; when it is not playing it is a no-op. -/
theorem c9_amended (s : Sys) :
    ((stepSys s Ev.pause).svc = s.svc ∧
     (stepSys s Ev.pause).chanToW = s.chanToW ∧
     (stepSys s Ev.pause).chanToS = s.chanToS ∧
     (stepSys s Ev.pause).wrk = s.wrk) ∧
    (s.ctrl.isPlaying = true →
      (stepSys s Ev.pause).ctrl.isPaused = true ∧
      (stepSys s Ev.pause).aq = ⟨[], none⟩) ∧
    (s.ctrl.isPlaying = false → stepSys s Ev.pause = s) := by
  by_cases h : s.ctrl.isPlaying = true
  · simp [stepSys, h, clearQueue]
  · simp only [Bool.not_eq_true] at h
    simp [stepSys, h, clearQueue]

/-- C9 witness: the amended theorem applied to a concrete mid-playback
state. -/
theorem c9_amended_witness :
    sysPlaying.ctrl.isPlaying = true ∧
    ((stepSys sysPlaying Ev.pause).ctrl.isPaused = true ∧
     (stepSys sysPlaying Ev.pause).aq = ⟨[], none⟩) :=
  ⟨rfl, (c9_amended sysPlaying).2.1 rfl⟩

/-! ## Claim C10: generateSpeech without an initialized worker -/

/-- C10: when the worker is not initialized (never created, or discarded
by `terminate`), `generateSpeech` rejects the returned promise with the
"Worker not initialized" error and invokes the `onError` callback, while
the pending request queue and the busy flag are left unchanged — the
failed request is never enqueued.  (The full post-state equation shows the
service state is untouched.) -/
theorem c10_generateSpeech_uninit (s : Sys) (text voice : String) (speed : Nat)
    (h : s.svc.workerPresent = false) :
    stepSys s (Ev.submit text voice speed) =
      { s with
        submitN := s.submitN + 1,
        ctrl := { s.ctrl with isGenerating := false,
                              errorMsg := "TTS Error: " ++ notInitMsg },
        log := s.log ++ [Act.errCb notInitMsg, Act.rejected s.submitN notInitMsg] } := by
  simp [stepSys, generateSpeechCore, fireErrorCb, h]

/-- C10 witness: after `terminate`, a concrete submission is rejected and
nothing is enqueued. -/
theorem c10_witness :
    sysTerm.svc.workerPresent = false ∧
    stepSys sysTerm (Ev.submit "x" "af_heart" 1) =
      { sysTerm with
        submitN := sysTerm.submitN + 1,
        ctrl := { sysTerm.ctrl with isGenerating := false,
                                    errorMsg := "TTS Error: " ++ notInitMsg },
        log := sysTerm.log ++ [Act.errCb notInitMsg,
                               Act.rejected sysTerm.submitN notInitMsg] } :=
  ⟨rfl, c10_generateSpeech_uninit sysTerm "x" "af_heart" 1 rfl⟩

/-! ## Claim C3: the transient busy-error path -/

/-- C3 (code-bug evidence): in the scenario where the engine answers the
dispatched request A (`rid 1`) with the exact transient busy error while
B (`rid 2`) is queued behind it, the service clears the busy flag and
waits for the backoff timer — but the timer's `processNextInQueue` then
dispatches B, because A was already removed from the queue when it was
first posted.  The full ghost log shows `sent 1` exactly once (A is never
re-dispatched) and `sent 2` immediately after the backoff: the head
request's position is NOT preserved and A's audio is lost. -/
theorem c3_busy_error_drops_request :
    (runSys c3trace).log =
      [Act.queuedReq 0 "Z", Act.sent 0, Act.resolved 0,
       Act.queuedReq 1 "A", Act.queuedReq 2 "B",
       Act.streamCb "Z", Act.playedA (0, 0),
       Act.completeCb, Act.sent 1, Act.resolved 1,
       Act.errCb busyErrMsg,
       Act.sent 2, Act.resolved 2] ∧
    sentRids (runSys c3trace).log = [0, 1, 2] ∧
    (runSys c3trace).svc.requestQueue = [] := by
  decide

/-! ## Claim C7: late messages after stop -/

/-- C7 (code-bug evidence): there is no session tagging anywhere in the
receiver.  After `handleStop` has cleared the playback state (empty audio
queue, empty `streamedText`), delivering the stale stream message of the
stopped session overwrites `streamedText` and starts playing the stale
segment — the late message is not ignored and mutates the state of the
later (stopped) session. -/
theorem c7_stale_message_mutates_after_stop :
    (runSys (c7trace.take 4)).ctrl.streamedText = "" ∧
    (runSys (c7trace.take 4)).aq = ⟨[], none⟩ ∧
    (runSys c7trace).ctrl.streamedText = "u0" ∧
    (runSys c7trace).aq = ⟨[], some (0, 0)⟩ ∧
    (runSys c7trace).playedL = [(0, 0)] := by
  decide

/-! ## Claim C6: one-ahead preloading bound -/

/-- C6 counterexample: `onPlaybackStarted` fires per audio segment, not
per text unit, and every firing advances the index and submits another
unit.  In the concrete run `c6trace`, unit u0 (three segments) is still
playing — only two of its segments have played — while u1 and u2 are
already submitted for synthesis: three text units are in the synthesis
pipeline at once, refuting the at-most-two bound. -/
theorem c6_counterexample :
    2 < pipelineUnits (runSys c6trace) ∧
    (runSys c6trace).ctrl.isPlaying = true ∧
    (runSys c6trace).svc.requestQueue.map Req.text = ["u1", "u2"] ∧
    (runSys c6trace).svc.isBusy = true ∧
    (runSys c6trace).playedL = [(0, 0), (0, 1)] ∧
    (runSys c6trace).emitted.length = 3 := by
  decide

/-! ## Claim C4: handle resolution and engine errors -/

/-- C4 counterexample: the completion handle of a submitted request
resolves in the very step that posts the message — before the worker has
received anything (`chanToW` still holds the message), hence before any
acceptance by the engine — and when the engine then reports a
non-transient error for that request, no handle is ever rejected. -/
theorem c4_counterexample :
    (runSys c4t1).log = [Act.queuedReq 0 "x", Act.sent 0, Act.resolved 0] ∧
    (runSys c4t1).chanToW = [⟨0, "x", "bad_voice", 1⟩] ∧
    (runSys c4trace).log =
      [Act.queuedReq 0 "x", Act.sent 0, Act.resolved 0,
       Act.errCb (invalidVoiceMsg "bad_voice")] ∧
    hasRejected (runSys c4trace).log = false := by
  decide

/-! ## Helper lemmas about `pniq` and `generateSpeechCore` -/

theorem queuedTexts_append (l l' : List Act) :
    queuedTexts (l ++ l') = queuedTexts l ++ queuedTexts l' := by
  simp [queuedTexts, List.filterMap_append]

theorem pniq_log_queued (n : Nat) (s : Sys) :
    queuedTexts (pniq n s).log = queuedTexts s.log := by
  induction n generalizing s with
  | zero => rfl
  | succ n ih =>
    rw [pniq]
    cases hq : s.svc.requestQueue with
    | nil => rfl
    | cons r rest =>
      by_cases hb : s.svc.isBusy = true
      · simp [hb]
      · simp only [Bool.not_eq_true] at hb
        by_cases hw : s.svc.workerPresent = true
        · simp [hb, hw, queuedTexts_append, queuedTexts]
        · simp only [Bool.not_eq_true] at hw
          simp only [hb, hw, Bool.false_eq_true, if_false, ih, fireErrorCb]
          simp [queuedTexts_append, queuedTexts]

theorem pniq_ctrl_present (n : Nat) (s : Sys)
    (hw : s.svc.workerPresent = true) :
    (pniq n s).ctrl = s.ctrl := by
  cases n with
  | zero => rfl
  | succ n =>
    rw [pniq]
    cases hq : s.svc.requestQueue with
    | nil => rfl
    | cons r rest =>
      by_cases hb : s.svc.isBusy = true
      · simp [hb]
      · simp only [Bool.not_eq_true] at hb
        simp [hb, hw]

/-! ## Claim C6 (amended): per-event preload bound -/

theorem gs_snd (s : Sys) (t v : String) (sp : Nat) :
    (generateSpeechCore s t v sp).2 = !s.svc.workerPresent := by
  unfold generateSpeechCore
  by_cases hw : s.svc.workerPresent = true
  · rw [if_neg (by simp [hw])]
    by_cases hb : s.svc.isBusy = true
    · rw [if_pos (by simpa using hb)]; simp [hw]
    · rw [if_neg (by simpa using hb)]; simp [hw]
  · simp only [Bool.not_eq_true] at hw
    rw [if_pos (by simp [hw])]; simp [hw]

theorem gs_queuedTexts (s : Sys) (t v : String) (sp : Nat) :
    queuedTexts (generateSpeechCore s t v sp).1.log =
      queuedTexts s.log ++ (if s.svc.workerPresent then [t] else []) := by
  unfold generateSpeechCore
  by_cases hw : s.svc.workerPresent = true
  · rw [if_neg (by simp [hw])]
    by_cases hb : s.svc.isBusy = true
    · rw [if_pos (by simpa using hb)]
      simp [hw, queuedTexts_append, queuedTexts]
    · rw [if_neg (by simpa using hb)]
      dsimp only
      rw [pniq_log_queued]
      simp [hw, queuedTexts_append, queuedTexts]
  · simp only [Bool.not_eq_true] at hw
    rw [if_pos (by simp [hw])]
    simp [hw, fireErrorCb, queuedTexts_append, queuedTexts]

theorem gs_ctrl (s : Sys) (t v : String) (sp : Nat) :
    (generateSpeechCore s t v sp).1.ctrl =
      (if s.svc.workerPresent then s.ctrl
       else { s.ctrl with isGenerating := false,
                          errorMsg := "TTS Error: " ++ notInitMsg }) := by
  unfold generateSpeechCore
  by_cases hw : s.svc.workerPresent = true
  · rw [if_neg (by simp [hw])]
    by_cases hb : s.svc.isBusy = true
    · rw [if_pos (by simpa using hb)]; simp [hw]
    · rw [if_neg (by simpa using hb)]
      dsimp only
      rw [pniq_ctrl_present _ _ (by simpa using hw)]
      simp [hw]
  · simp only [Bool.not_eq_true] at hw
    rw [if_pos (by simp [hw])]
    simp [hw, fireErrorCb]

/-- Behaviour of one `preloadNextParagraph` call on a paragraph queue of
non-blank chunks: either no unit is submitted, or exactly the unit at
`currentParagraphIndex + 1` is submitted and the index advances by one. -/
theorem preload_spec (s : Sys)
    (hq : ∀ c ∈ s.ctrl.paragraphQueue, jsTrim c.text ≠ "") :
    queuedTexts (preloadNextParagraph s).log = queuedTexts s.log ∨
    (queuedTexts (preloadNextParagraph s).log = queuedTexts s.log ++
        [(s.ctrl.paragraphQueue.getD (s.ctrl.currentParagraphIndex + 1)
            ⟨"", none, false⟩).text] ∧
     (preloadNextParagraph s).ctrl.currentParagraphIndex =
        s.ctrl.currentParagraphIndex + 1) := by
  unfold preloadNextParagraph
  by_cases hp : s.ctrl.isPaused = true
  · rw [if_pos hp]; left; rfl
  · rw [if_neg hp]
    by_cases hlen : s.ctrl.paragraphQueue.length ≤ s.ctrl.currentParagraphIndex + 1
    · rw [if_pos hlen]; left; rfl
    · rw [if_neg hlen]
      have hlt : s.ctrl.currentParagraphIndex + 1 < s.ctrl.paragraphQueue.length := by
        omega
      have hmem : s.ctrl.paragraphQueue.getD (s.ctrl.currentParagraphIndex + 1)
          ⟨"", none, false⟩ ∈ s.ctrl.paragraphQueue := by
        rw [List.getD_eq_getElem _ _ hlt]
        exact List.getElem_mem hlt
      rw [if_neg (by simpa using hq _ hmem)]
      dsimp only
      rw [gs_snd]
      dsimp only
      by_cases hw : s.svc.workerPresent = true
      · rw [hw]
        rw [if_neg (by simp)]
        rw [gs_queuedTexts, gs_ctrl]
        dsimp only
        rw [hw]
        right
        refine ⟨by simp, by simp⟩
      · simp only [Bool.not_eq_true] at hw
        rw [hw]
        rw [if_pos (by simp)]
        dsimp only
        rw [gs_queuedTexts]
        dsimp only
        rw [hw]
        left
        simp

/-- C6 amended: each `onPlaybackStarted` firing submits at most one
additional unit — the unit at `currentParagraphIndex + 1` — and when it
submits, it advances the index by exactly one (given a paragraph queue of
non-blank chunks, as the chunker produces); the claim's global
at-most-two-outstanding bound does not hold because the event fires per
segment (see the counterexample). -/
theorem c6_one_ahead_per_event (s : Sys)
    (hq : ∀ c ∈ s.ctrl.paragraphQueue, jsTrim c.text ≠ "") :
    queuedTexts (stepSys s Ev.segStarted).log = queuedTexts s.log ∨
    (queuedTexts (stepSys s Ev.segStarted).log = queuedTexts s.log ++
        [(s.ctrl.paragraphQueue.getD (s.ctrl.currentParagraphIndex + 1)
            ⟨"", none, false⟩).text] ∧
     (stepSys s Ev.segStarted).ctrl.currentParagraphIndex =
        s.ctrl.currentParagraphIndex + 1) := by
  rw [show stepSys s Ev.segStarted = onStartedSys s from rfl]
  unfold onStartedSys
  by_cases hcur : s.aq.current.isSome = true
  · rw [if_pos hcur]
    by_cases hg : s.ctrl.isPlaying = true ∧ ¬s.ctrl.isPaused = true ∧
        s.ctrl.currentParagraphIndex < s.ctrl.paragraphQueue.length - 1
    · rw [if_pos (by simpa using hg)]
      rcases preload_spec { s with log := s.log ++ [Act.playbackStartedCb] }
          (by simpa using hq) with h | ⟨h1, h2⟩
      · left
        rw [h]
        simp [queuedTexts_append, queuedTexts]
      · right
        constructor
        · rw [h1]
          simp [queuedTexts_append, queuedTexts]
        · exact h2
    · rw [if_neg (by simpa using hg)]
      left
      simp [queuedTexts_append, queuedTexts]
  · rw [if_neg hcur]
    left
    rfl

/-- C6 amended witness: the per-event bound at the concrete pre-state of
the counterexample run (all chunks non-blank). -/
theorem c6_amended_witness :
    (∀ c ∈ (runSys c6pre).ctrl.paragraphQueue, jsTrim c.text ≠ "") ∧
    (queuedTexts (stepSys (runSys c6pre) Ev.segStarted).log =
        queuedTexts (runSys c6pre).log ∨
     (queuedTexts (stepSys (runSys c6pre) Ev.segStarted).log =
        queuedTexts (runSys c6pre).log ++
          [((runSys c6pre).ctrl.paragraphQueue.getD
              ((runSys c6pre).ctrl.currentParagraphIndex + 1)
              ⟨"", none, false⟩).text] ∧
      (stepSys (runSys c6pre) Ev.segStarted).ctrl.currentParagraphIndex =
        (runSys c6pre).ctrl.currentParagraphIndex + 1)) :=
  ⟨by decide, c6_one_ahead_per_event (runSys c6pre) (by decide)⟩

/-! ## Claim C4 (amended): resolution at post time, no rejection on error -/

/-- C4 amended: the completion handle resolves when the request message is
posted to the engine (in the same dispatch step, before any engine
acceptance — see the counterexample), and a non-transient engine error for
the in-flight request rejects no handle: the service fires `onError`,
clears the busy flag, and in the same step dispatches (posts and resolves)
the next queued request, never re-dispatching the errored one. -/
theorem c4_amended (s : Sys) (e : String) (rest : List WOut) (r : Req)
    (rs : List Req)
    (he : e ≠ busyErrMsg)
    (hc : s.chanToS = WOut.error e :: rest)
    (hq : s.svc.requestQueue = r :: rs)
    (hw : s.svc.workerPresent = true) :
    stepSys s Ev.serviceRecv =
      { s with
        chanToS := rest,
        ctrl := { s.ctrl with isGenerating := false,
                              errorMsg := "TTS Error: " ++ e },
        svc := { s.svc with isBusy := true, requestQueue := rs },
        answeredN := s.answeredN + 1,
        sentN := s.sentN + 1,
        chanToW := s.chanToW ++ [⟨r.rid, r.text, r.voice, r.speed⟩],
        log := s.log ++ [Act.errCb e, Act.sent r.rid, Act.resolved r.rid] } := by
  have h1 : stepSys s Ev.serviceRecv =
      recvMsg { s with chanToS := rest } (WOut.error e) := by
    show (match s.chanToS with
          | [] => s
          | m :: rest => recvMsg { s with chanToS := rest } m) = _
    rw [hc]
  rw [h1]
  simp only [recvMsg, fireErrorCb]
  rw [if_neg he]
  simp only [hq, List.length_cons]
  rw [pniq]
  simp only [hq]
  rw [if_neg (by simp)]
  simp [hw, List.append_assoc]

/-- C4 amended witness: the concrete state of `c4wtrace` (error answer in
the channel, one request queued) stepped once. -/
theorem c4_amended_witness :
    (runSys c4wtrace).chanToS = [WOut.error (invalidVoiceMsg "bad_voice")] ∧
    stepSys (runSys c4wtrace) Ev.serviceRecv =
      { (runSys c4wtrace) with
        chanToS := [],
        ctrl := { (runSys c4wtrace).ctrl with
                    isGenerating := false,
                    errorMsg := "TTS Error: " ++ invalidVoiceMsg "bad_voice" },
        svc := { (runSys c4wtrace).svc with isBusy := true, requestQueue := [] },
        answeredN := (runSys c4wtrace).answeredN + 1,
        sentN := (runSys c4wtrace).sentN + 1,
        chanToW := (runSys c4wtrace).chanToW ++ [⟨1, "y", "af_heart", 1⟩],
        log := (runSys c4wtrace).log ++
          [Act.errCb (invalidVoiceMsg "bad_voice"), Act.sent 1, Act.resolved 1] } :=
  ⟨by decide,
   c4_amended (runSys c4wtrace) (invalidVoiceMsg "bad_voice") []
     ⟨1, "y", "af_heart", 1⟩ [] (by decide) (by decide) (by decide) (by decide)⟩

/-! ## Claim C2: single request in flight

`InvC2` is established by induction over arbitrary event traces (without
`terminate`, which abandons the in-flight request by design). -/

theorem invC2_eqFields {s s' : Sys}
    (h1 : s'.svc.workerPresent = s.svc.workerPresent)
    (h2 : s'.svc.isBusy = s.svc.isBusy)
    (h3 : s'.sentN = s.sentN) (h4 : s'.answeredN = s.answeredN)
    (h5 : s'.chanToW = s.chanToW) (h6 : s'.wrk = s.wrk)
    (h7 : s'.chanToS = s.chanToS) :
    InvC2 s → InvC2 s' := by
  intro h
  unfold InvC2 at h ⊢
  rw [h1, h2, h3, h4, h5, h6, h7]
  exact h

theorem pniq_invC2 (n : Nat) (s : Sys) (h : InvC2 s) : InvC2 (pniq n s) := by
  cases n with
  | zero => exact h
  | succ n =>
    rw [pniq]
    cases hq : s.svc.requestQueue with
    | nil => exact h
    | cons r rest =>
      dsimp only
      by_cases hb : s.svc.isBusy = true
      · rw [if_pos hb]; exact h
      · simp only [Bool.not_eq_true] at hb
        rw [if_neg (by simp [hb])]
        rw [if_pos (by simpa using h.1)]
        obtain ⟨hw, _hbt, hbf, heq⟩ := h
        have hsa : s.sentN = s.answeredN := hbf hb
        refine ⟨by simpa using hw, ?_, ?_, ?_⟩
        · intro _
          dsimp only
          omega
        · intro hx
          simp at hx
        · dsimp only
          simp only [List.length_append, List.length_cons, List.length_nil]
          omega

theorem gs_invC2 (s : Sys) (t v : String) (sp : Nat) (h : InvC2 s) :
    InvC2 (generateSpeechCore s t v sp).1 := by
  unfold generateSpeechCore
  rw [if_neg (by simp [h.1])]
  dsimp only
  by_cases hb : s.svc.isBusy = true
  · rw [if_pos (by simpa using hb)]
    exact invC2_eqFields rfl rfl rfl rfl rfl rfl rfl h
  · rw [if_neg (by simpa using hb)]
    dsimp only
    refine pniq_invC2 _ _ ?_
    exact invC2_eqFields rfl rfl rfl rfl rfl rfl rfl h

theorem pnp_invC2 (n : Nat) (s : Sys) (h : InvC2 s) : InvC2 (pnp n s) := by
  induction n generalizing s with
  | zero => exact h
  | succ n ih =>
    rw [pnp]
    by_cases h1 : s.ctrl.paragraphQueue.length ≤ s.ctrl.currentParagraphIndex
    · rw [if_pos h1]
      exact invC2_eqFields rfl rfl rfl rfl rfl rfl rfl h
    · rw [if_neg h1]
      by_cases h2 : s.ctrl.isPaused = true
      · rw [if_pos h2]; exact h
      · rw [if_neg h2]
        dsimp only
        split
        · exact ih _ (invC2_eqFields rfl rfl rfl rfl rfl rfl rfl h)
        · split
          · exact invC2_eqFields rfl rfl rfl rfl rfl rfl rfl
              (gs_invC2 _ _ _ _ (invC2_eqFields rfl rfl rfl rfl rfl rfl rfl h))
          · exact gs_invC2 _ _ _ _ (invC2_eqFields rfl rfl rfl rfl rfl rfl rfl h)

theorem preload_invC2 (s : Sys) (h : InvC2 s) :
    InvC2 (preloadNextParagraph s) := by
  unfold preloadNextParagraph
  by_cases h1 : s.ctrl.isPaused = true
  · rw [if_pos h1]; exact h
  · rw [if_neg h1]
    by_cases h2 : s.ctrl.paragraphQueue.length ≤ s.ctrl.currentParagraphIndex + 1
    · rw [if_pos h2]; exact h
    · rw [if_neg h2]
      dsimp only
      split
      · exact pnp_invC2 _ _ (invC2_eqFields rfl rfl rfl rfl rfl rfl rfl h)
      · split
        · exact invC2_eqFields rfl rfl rfl rfl rfl rfl rfl
            (gs_invC2 _ _ _ _ (invC2_eqFields rfl rfl rfl rfl rfl rfl rfl h))
        · exact gs_invC2 _ _ _ _ (invC2_eqFields rfl rfl rfl rfl rfl rfl rfl h)

theorem fireQE_invC2 (s : Sys) (h : InvC2 s) : InvC2 (fireQueueEmptyCb s) := by
  unfold fireQueueEmptyCb
  dsimp only
  split
  · exact invC2_eqFields rfl rfl rfl rfl rfl rfl rfl h
  · exact invC2_eqFields rfl rfl rfl rfl rfl rfl rfl h

theorem applyAQOut_invC2 (s : Sys) (o : AQOut (Nat × Nat)) (h : InvC2 s) :
    InvC2 (applyAQOut s o) := by
  cases o with
  | played b => exact invC2_eqFields rfl rfl rfl rfl rfl rfl rfl h
  | queueEmpty => exact fireQE_invC2 s h

theorem applyAQOuts_invC2 (outs : List (AQOut (Nat × Nat))) (s : Sys)
    (h : InvC2 s) : InvC2 (applyAQOuts s outs) := by
  induction outs generalizing s with
  | nil => exact h
  | cons o os ih =>
    exact ih _ (applyAQOut_invC2 s o h)

theorem answersIn_append (l l' : List WOut) :
    answersIn (l ++ l') = answersIn l + answersIn l' := by
  simp [answersIn, List.filter_append]

theorem wrecv_shape (s : Sys) (m : WIn) :
    (∃ er, wrecv s m = { s with chanToS := s.chanToS ++ [WOut.error er] }) ∨
    (s.wrk.phase = WPhase.idle ∧
      wrecv s m = { s with wrk := { s.wrk with
        phase := WPhase.emitting m.rid m.text 0 } }) := by
  unfold wrecv
  split
  · exact Or.inl ⟨_, rfl⟩
  · split
    · exact Or.inl ⟨_, rfl⟩
    · split
      · exact Or.inl ⟨_, rfl⟩
      · rename_i hph
        simp only [ne_eq, Decidable.not_not] at hph
        exact Or.inr ⟨hph, rfl⟩

theorem step_invC2 (s : Sys) (e : Ev) (he : e ≠ Ev.terminate) (h : InvC2 s) :
    InvC2 (stepSys s e) := by
  cases e with
  | submit t v sp => exact gs_invC2 s t v sp h
  | play chunks =>
    simp only [stepSys]
    split
    · exact h
    · exact pnp_invC2 _ _ (invC2_eqFields rfl rfl rfl rfl rfl rfl rfl h)
  | pause =>
    simp only [stepSys]
    split
    · exact invC2_eqFields rfl rfl rfl rfl rfl rfl rfl h
    · exact h
  | resume =>
    simp only [stepSys]
    split
    · exact pnp_invC2 _ _ (invC2_eqFields rfl rfl rfl rfl rfl rfl rfl h)
    · exact h
  | stop =>
    exact invC2_eqFields rfl rfl rfl rfl rfl rfl rfl h
  | terminate => exact absurd rfl he
  | timerFire =>
    simp only [stepSys]
    split
    · exact h
    · exact pniq_invC2 _ _ (invC2_eqFields rfl rfl rfl rfl rfl rfl rfl h)
  | workerRecv =>
    simp only [stepSys]
    cases hw : s.chanToW with
    | nil => exact h
    | cons m rest =>
      dsimp only
      obtain ⟨h1, h2, h3, h4⟩ := h
      rw [hw] at h4
      simp only [List.length_cons] at h4
      rcases wrecv_shape { s with chanToW := rest } m with ⟨er, heq⟩ | ⟨hidle, heq⟩
      · rw [heq]
        refine ⟨h1, h2, h3, ?_⟩
        dsimp only
        rw [answersIn_append]
        have hone : answersIn [WOut.error er] = 1 := by simp [answersIn]
        omega
      · rw [heq]
        dsimp only at hidle
        refine ⟨h1, h2, h3, ?_⟩
        dsimp only
        rw [hidle] at h4
        simp only [phasePending] at h4 ⊢
        omega
  | engineEmit =>
    simp only [stepSys]
    cases hp : s.wrk.phase with
    | idle => exact h
    | finishing rid => exact h
    | emitting rid t k =>
      dsimp only
      obtain ⟨h1, h2, h3, h4⟩ := h
      rw [hp] at h4
      refine ⟨h1, h2, h3, ?_⟩
      dsimp only
      rw [answersIn_append]
      have hzero : answersIn [WOut.stream rid k t] = 0 := by simp [answersIn]
      simp only [phasePending] at h4 ⊢
      omega
  | engineComplete =>
    simp only [stepSys]
    cases hp : s.wrk.phase with
    | idle => exact h
    | finishing rid => exact h
    | emitting rid t k =>
      dsimp only
      obtain ⟨h1, h2, h3, h4⟩ := h
      rw [hp] at h4
      refine ⟨h1, h2, h3, ?_⟩
      dsimp only
      rw [answersIn_append]
      have hone : answersIn [WOut.complete (0 < k)] = 1 := by simp [answersIn]
      simp only [phasePending] at h4 ⊢
      omega
  | handlerFinish =>
    simp only [stepSys]
    cases hp : s.wrk.phase with
    | idle => exact h
    | emitting rid t k => exact h
    | finishing rid =>
      dsimp only
      obtain ⟨h1, h2, h3, h4⟩ := h
      rw [hp] at h4
      refine ⟨h1, h2, h3, ?_⟩
      dsimp only
      simp only [phasePending] at h4 ⊢
      omega
  | serviceRecv =>
    simp only [stepSys]
    cases hc : s.chanToS with
    | nil => exact h
    | cons m rest =>
      dsimp only
      have h4 := h.2.2.2
      rw [hc, show m :: rest = [m] ++ rest from rfl, answersIn_append] at h4
      cases m with
      | device d =>
        unfold recvMsg
        dsimp only
        refine ⟨h.1, h.2.1, h.2.2.1, ?_⟩
        have hzero : answersIn [WOut.device d] = 0 := by simp [answersIn]
        dsimp only
        omega
      | ready vs d =>
        unfold recvMsg
        dsimp only
        refine ⟨h.1, h.2.1, h.2.2.1, ?_⟩
        have hzero : answersIn [WOut.ready vs d] = 0 := by simp [answersIn]
        dsimp only
        omega
      | stream rid idx t =>
        unfold recvMsg
        dsimp only
        refine applyAQOuts_invC2 _ _ ⟨h.1, h.2.1, h.2.2.1, ?_⟩
        have hzero : answersIn [WOut.stream rid idx t] = 0 := by simp [answersIn]
        dsimp only
        omega
      | complete b =>
        unfold recvMsg
        dsimp only
        have hone : answersIn [WOut.complete b] = 1 := by simp [answersIn]
        have hbusy : s.svc.isBusy = true := by
          by_contra hbc
          simp only [Bool.not_eq_true] at hbc
          have := h.2.2.1 hbc
          omega
        have hsa : s.sentN = s.answeredN + 1 := h.2.1 hbusy
        refine pniq_invC2 _ _ ⟨h.1, ?_, ?_, ?_⟩
        · intro hx
          simp at hx
        · intro _
          dsimp only
          omega
        · dsimp only
          omega
      | error e =>
        unfold recvMsg
        dsimp only
        have hone : answersIn [WOut.error e] = 1 := by simp [answersIn]
        have hbusy : s.svc.isBusy = true := by
          by_contra hbc
          simp only [Bool.not_eq_true] at hbc
          have := h.2.2.1 hbc
          omega
        have hsa : s.sentN = s.answeredN + 1 := h.2.1 hbusy
        split
        · refine ⟨h.1, ?_, ?_, ?_⟩
          · intro hx
            simp [fireErrorCb] at hx
          · intro _
            dsimp only [fireErrorCb]
            omega
          · dsimp only [fireErrorCb]
            omega
        · refine pniq_invC2 _ _ ⟨h.1, ?_, ?_, ?_⟩
          · intro hx
            simp [fireErrorCb] at hx
          · intro _
            dsimp only [fireErrorCb]
            omega
          · dsimp only [fireErrorCb]
            omega
  | segStarted =>
    simp only [stepSys]
    unfold onStartedSys
    split
    · dsimp only
      split
      · exact preload_invC2 _ (invC2_eqFields rfl rfl rfl rfl rfl rfl rfl h)
      · exact invC2_eqFields rfl rfl rfl rfl rfl rfl rfl h
    · exact h
  | segEnded =>
    simp only [stepSys]
    exact applyAQOuts_invC2 _ _ (invC2_eqFields rfl rfl rfl rfl rfl rfl rfl h)
  | segFailed =>
    simp only [stepSys]
    exact applyAQOuts_invC2 _ _ (invC2_eqFields rfl rfl rfl rfl rfl rfl rfl h)

theorem invC2_init : InvC2 sysInit :=
  ⟨rfl, fun hx => absurd hx (by decide), fun _ => rfl, rfl⟩

theorem run_invC2 (evs : List Ev) (h : ∀ e ∈ evs, e ≠ Ev.terminate) :
    InvC2 (runSys evs) := by
  have main : ∀ (l : List Ev) (s : Sys), InvC2 s →
      (∀ e ∈ l, e ≠ Ev.terminate) → InvC2 (l.foldl stepSys s) := by
    intro l
    induction l with
    | nil => intro s hs _; exact hs
    | cons e l ih =>
      intro s hs hl
      simp only [List.foldl_cons]
      exact ih _ (step_invC2 s e (hl e (by simp)) hs)
        (fun x hx => hl x (by simp [hx]))
  exact main evs sysInit invC2_init h

theorem gs_busy_append (s : Sys) (t v : String) (sp : Nat)
    (hw : s.svc.workerPresent = true) (hb : s.svc.isBusy = true) :
    (generateSpeechCore s t v sp).1.svc.requestQueue =
        s.svc.requestQueue ++ [⟨s.submitN, t, v, sp⟩] ∧
    (generateSpeechCore s t v sp).1.sentN = s.sentN ∧
    (generateSpeechCore s t v sp).1.chanToW = s.chanToW := by
  unfold generateSpeechCore
  rw [if_neg (by simp [hw])]
  dsimp only
  rw [if_pos (by simpa using hb)]
  exact ⟨rfl, rfl, rfl⟩

/-- C2: in every state reachable by a trace of submissions and engine
messages (`terminate` apart, which abandons in-flight requests by design),
at most one synthesis request is in flight: the number of dispatched
requests never exceeds the number of received completion/error answers by
more than one, the busy flag is set exactly while a dispatched request is
unanswered, and a submission arriving while the busy flag is set only
appends to the FIFO pending list — it posts nothing to the engine. -/
theorem c2_single_in_flight (evs : List Ev) (h : ∀ e ∈ evs, e ≠ Ev.terminate) :
    ((runSys evs).sentN ≤ (runSys evs).answeredN + 1) ∧
    ((runSys evs).svc.isBusy = true ↔
      (runSys evs).sentN = (runSys evs).answeredN + 1) ∧
    (∀ (t v : String) (sp : Nat), (runSys evs).svc.isBusy = true →
      (stepSys (runSys evs) (Ev.submit t v sp)).svc.requestQueue =
        (runSys evs).svc.requestQueue ++ [⟨(runSys evs).submitN, t, v, sp⟩] ∧
      (stepSys (runSys evs) (Ev.submit t v sp)).sentN = (runSys evs).sentN ∧
      (stepSys (runSys evs) (Ev.submit t v sp)).chanToW = (runSys evs).chanToW) := by
  obtain ⟨h1, h2, h3, _h4⟩ := run_invC2 evs h
  refine ⟨?_, ⟨fun hb => h2 hb, fun hs => ?_⟩, ?_⟩
  · cases hbb : (runSys evs).svc.isBusy with
    | true => exact Nat.le_of_eq (h2 hbb)
    | false => exact Nat.le_succ_of_le (Nat.le_of_eq (h3 hbb))
  · cases hbb : (runSys evs).svc.isBusy with
    | true => rfl
    | false =>
      have := h3 hbb
      omega
  · intro t v sp hb
    exact gs_busy_append (runSys evs) t v sp h1 hb

/-- C2 witness: the invariant evaluated after a concrete overlapping
submission burst (second request auto-dequeued by the first's completion,
still at most one in flight). -/
theorem c2_witness :
    (∀ e ∈ c2evs, e ≠ Ev.terminate) ∧
    (runSys c2evs).svc.isBusy = true ∧
    ((runSys c2evs).sentN ≤ (runSys c2evs).answeredN + 1) ∧
    (stepSys (runSys c2evs) (Ev.submit "c" "af_heart" 1)).svc.requestQueue =
      (runSys c2evs).svc.requestQueue ++ [⟨(runSys c2evs).submitN, "c", "af_heart", 1⟩] ∧
    (stepSys (runSys c2evs) (Ev.submit "c" "af_heart" 1)).sentN = (runSys c2evs).sentN :=
  ⟨by decide, by decide,
   (c2_single_in_flight c2evs (by decide)).1,
   ((c2_single_in_flight c2evs (by decide)).2.2 "c" "af_heart" 1 (by decide)).1,
   ((c2_single_in_flight c2evs (by decide)).2.2 "c" "af_heart" 1 (by decide)).2.1⟩

/-! ## Claim C1: playback order equals generation order

`InvC1` is established by induction over benign traces (no stop, no
pause, no play — the clear operations the claim itself excludes — and no
terminate). -/

theorem chanSegs_append (l l' : List WOut) :
    chanSegs (l ++ l') = chanSegs l ++ chanSegs l' := by
  simp [chanSegs, List.filterMap_append]

theorem invC1_futEq {s s' : Sys}
    (h1 : s'.svc.workerPresent = s.svc.workerPresent)
    (hf : futureRids s' = futureRids s)
    (h4 : s'.chanToS = s.chanToS)
    (h5 : s'.aq.queue = s.aq.queue)
    (h6 : s'.wrk = s.wrk)
    (h7 : s'.emitted = s.emitted)
    (h8 : s'.playedL = s.playedL)
    (h9 : s'.submitN = s.submitN) :
    InvC1 s → InvC1 s' := by
  intro h
  unfold InvC1 at h ⊢
  rw [h1, hf, h4, h5, h6, h7, h8, h9]
  exact h

theorem phaseOk_mono {ph : WPhase} {emitted : List (Nat × Nat)}
    {fut fut' : List Nat} {n : Nat}
    (hsub : ∀ x ∈ fut', x ∈ fut) (h : phaseOk ph emitted fut n) :
    phaseOk ph emitted fut' n := by
  cases ph with
  | idle =>
    simp only [phaseOk] at h ⊢
    intro p hp x hx
    exact h p hp x (hsub x hx)
  | emitting rid t k =>
    obtain ⟨a, b, c⟩ := h
    exact ⟨a, fun x hx => b x (hsub x hx), c⟩
  | finishing rid =>
    obtain ⟨a, b, c⟩ := h
    exact ⟨a, fun x hx => b x (hsub x hx), c⟩

theorem phaseOk_submit {ph : WPhase} {emitted : List (Nat × Nat)}
    {fut : List Nat} {n : Nat}
    (hemb : ∀ p ∈ emitted, p.1 < n) (h : phaseOk ph emitted fut n) :
    phaseOk ph emitted (fut ++ [n]) (n + 1) := by
  cases ph with
  | idle =>
    simp only [phaseOk] at h ⊢
    intro p hp x hx
    rcases List.mem_append.mp hx with hx | hx
    · exact h p hp x hx
    · simp only [List.mem_singleton] at hx
      rw [hx]
      exact hemb p hp
  | emitting rid t k =>
    obtain ⟨a, b, c⟩ := h
    refine ⟨a, ?_, by omega⟩
    intro x hx
    rcases List.mem_append.mp hx with hx | hx
    · exact b x hx
    · simp only [List.mem_singleton] at hx
      omega
  | finishing rid =>
    obtain ⟨a, b, c⟩ := h
    refine ⟨a, ?_, by omega⟩
    intro x hx
    rcases List.mem_append.mp hx with hx | hx
    · exact b x hx
    · simp only [List.mem_singleton] at hx
      omega

theorem invC1_init : InvC1 sysInit := by
  refine ⟨rfl, rfl, List.Pairwise.nil, ?_, ?_, ?_, ?_⟩
  · simp [futureRids, sysInit]
  · simp [futureRids, sysInit]
  · simp [sysInit]
  · simp [sysInit, phaseOk, futureRids]

theorem pniq_invC1 (n : Nat) (s : Sys) (h : InvC1 s) : InvC1 (pniq n s) := by
  cases n with
  | zero => exact h
  | succ n =>
    rw [pniq]
    cases hq : s.svc.requestQueue with
    | nil => exact h
    | cons r rest =>
      dsimp only
      by_cases hb : s.svc.isBusy = true
      · rw [if_pos hb]; exact h
      · simp only [Bool.not_eq_true] at hb
        rw [if_neg (by simp [hb])]
        rw [if_pos (by simpa using h.1)]
        refine invC1_futEq ?_ ?_ ?_ ?_ ?_ ?_ ?_ ?_ h
        · rfl
        · simp [futureRids, hq, List.map_append]
        · rfl
        · rfl
        · rfl
        · rfl
        · rfl
        · rfl

theorem gs_invC1 (s : Sys) (t v : String) (sp : Nat) (h : InvC1 s) :
    InvC1 (generateSpeechCore s t v sp).1 := by
  obtain ⟨hw, hacc, hsort, hfut, hfub, hemb, hph⟩ := h
  unfold generateSpeechCore
  rw [if_neg (by simp [hw])]
  dsimp only
  have hfut' : futureRids { s with
      submitN := s.submitN + 1,
      svc := { s.svc with requestQueue :=
        s.svc.requestQueue ++ [⟨s.submitN, t, v, sp⟩] },
      log := s.log ++ [Act.queuedReq s.submitN t] } =
      futureRids s ++ [s.submitN] := by
    simp [futureRids, List.map_append]
  have hmid : InvC1 { s with
      submitN := s.submitN + 1,
      svc := { s.svc with requestQueue :=
        s.svc.requestQueue ++ [⟨s.submitN, t, v, sp⟩] },
      log := s.log ++ [Act.queuedReq s.submitN t] } := by
    refine ⟨hw, hacc, hsort, ?_, ?_, ?_, ?_⟩
    · rw [hfut']
      rw [List.pairwise_append]
      refine ⟨hfut, by simp, ?_⟩
      intro a ha b hb
      simp only [List.mem_singleton] at hb
      rw [hb]
      exact hfub a ha
    · rw [hfut']
      intro x hx
      rcases List.mem_append.mp hx with hx | hx
      · exact Nat.lt_succ_of_lt (hfub x hx)
      · simp only [List.mem_singleton] at hx
        dsimp only
        omega
    · intro p hp
      exact Nat.lt_succ_of_lt (hemb p hp)
    · show phaseOk s.wrk.phase s.emitted _ (s.submitN + 1)
      rw [hfut']
      exact phaseOk_submit hemb hph
  split
  · exact hmid
  · exact pniq_invC1 _ _ hmid

theorem pnp_invC1 (n : Nat) (s : Sys) (h : InvC1 s) : InvC1 (pnp n s) := by
  induction n generalizing s with
  | zero => exact h
  | succ n ih =>
    rw [pnp]
    by_cases h1 : s.ctrl.paragraphQueue.length ≤ s.ctrl.currentParagraphIndex
    · rw [if_pos h1]
      exact invC1_futEq rfl rfl rfl rfl rfl rfl rfl rfl h
    · rw [if_neg h1]
      by_cases h2 : s.ctrl.isPaused = true
      · rw [if_pos h2]; exact h
      · rw [if_neg h2]
        dsimp only
        split
        · exact ih _ (invC1_futEq rfl rfl rfl rfl rfl rfl rfl rfl h)
        · split
          · exact invC1_futEq rfl rfl rfl rfl rfl rfl rfl rfl
              (gs_invC1 _ _ _ _ (invC1_futEq rfl rfl rfl rfl rfl rfl rfl rfl h))
          · exact gs_invC1 _ _ _ _ (invC1_futEq rfl rfl rfl rfl rfl rfl rfl rfl h)

theorem preload_invC1 (s : Sys) (h : InvC1 s) :
    InvC1 (preloadNextParagraph s) := by
  unfold preloadNextParagraph
  by_cases h1 : s.ctrl.isPaused = true
  · rw [if_pos h1]; exact h
  · rw [if_neg h1]
    by_cases h2 : s.ctrl.paragraphQueue.length ≤ s.ctrl.currentParagraphIndex + 1
    · rw [if_pos h2]; exact h
    · rw [if_neg h2]
      dsimp only
      split
      · exact pnp_invC1 _ _ (invC1_futEq rfl rfl rfl rfl rfl rfl rfl rfl h)
      · split
        · exact invC1_futEq rfl rfl rfl rfl rfl rfl rfl rfl
            (gs_invC1 _ _ _ _ (invC1_futEq rfl rfl rfl rfl rfl rfl rfl rfl h))
        · exact gs_invC1 _ _ _ _ (invC1_futEq rfl rfl rfl rfl rfl rfl rfl rfl h)

theorem fireQE_invC1 (s : Sys) (h : InvC1 s) : InvC1 (fireQueueEmptyCb s) := by
  unfold fireQueueEmptyCb
  dsimp only
  split
  · exact invC1_futEq rfl rfl rfl rfl rfl rfl rfl rfl h
  · exact invC1_futEq rfl rfl rfl rfl rfl rfl rfl rfl h

theorem chanSegs_cons (m : WOut) (l : List WOut) :
    chanSegs (m :: l) =
      (match m with
       | WOut.stream r i _ => [(r, i)]
       | _ => []) ++ chanSegs l := by
  cases m <;> simp [chanSegs]

theorem addToQueue_shape {α : Type} (aq : AQ α) (b : α) :
    ∃ po : List α, (addToQueue aq b).2 = po.map AQOut.played ∧
      po ++ (addToQueue aq b).1.queue = aq.queue ++ [b] := by
  unfold addToQueue
  by_cases hc : aq.current.isNone
  · rw [if_pos hc]
    unfold playNextB
    cases hq : aq.queue with
    | nil => exact ⟨[b], by simp [hq], by simp [hq]⟩
    | cons x xs => exact ⟨[x], by simp [hq], by simp [hq]⟩
  · rw [if_neg hc]
    exact ⟨[], rfl, rfl⟩

theorem onEnded_shape {α : Type} (aq : AQ α) :
    (∃ po : List α, (onEnded aq).2 = po.map AQOut.played ∧
      po ++ (onEnded aq).1.queue = aq.queue) ∨
    ((onEnded aq).2 = [AQOut.queueEmpty] ∧ (onEnded aq).1.queue = aq.queue) := by
  unfold onEnded
  by_cases hc : aq.current.isSome
  · rw [if_pos hc]
    unfold playNextB
    cases hq : aq.queue with
    | nil => right; constructor <;> simp [hq]
    | cons x xs => left; exact ⟨[x], by simp [hq], by simp [hq]⟩
  · rw [if_neg hc]
    left; exact ⟨[], rfl, by simp⟩

theorem onFailed_shape {α : Type} (aq : AQ α) :
    (∃ po : List α, (onFailed aq).2 = po.map AQOut.played ∧
      po ++ (onFailed aq).1.queue = aq.queue) ∨
    ((onFailed aq).2 = [AQOut.queueEmpty] ∧ (onFailed aq).1.queue = aq.queue) := by
  unfold onFailed
  by_cases hc : aq.current.isSome
  · rw [if_pos hc]
    unfold playNextB
    cases hq : aq.queue with
    | nil => right; constructor <;> simp [hq]
    | cons x xs => left; exact ⟨[x], by simp [hq], by simp [hq]⟩
  · rw [if_neg hc]
    left; exact ⟨[], rfl, by simp⟩

theorem applyPlayed (po : List (Nat × Nat)) : ∀ (s : Sys),
    applyAQOuts s (po.map AQOut.played) =
      { s with playedL := s.playedL ++ po,
               log := s.log ++ po.map Act.playedA } := by
  induction po with
  | nil =>
    intro s
    show s = _
    simp
  | cons p ps ih =>
    intro s
    show applyAQOuts (applyAQOut s (AQOut.played p)) (ps.map AQOut.played) = _
    rw [show applyAQOut s (AQOut.played p) =
      { s with playedL := s.playedL ++ [p],
               log := s.log ++ [Act.playedA p] } from rfl]
    rw [ih]
    simp [List.append_assoc]

theorem step_invC1 (s : Sys) (e : Ev) (hbn : BenignC1 e) (h : InvC1 s) :
    InvC1 (stepSys s e) := by
  cases e with
  | play chunks => exact hbn.elim
  | pause => exact hbn.elim
  | resume => exact hbn.elim
  | stop => exact hbn.elim
  | terminate => exact hbn.elim
  | submit t v sp => exact gs_invC1 s t v sp h
  | timerFire =>
    simp only [stepSys]
    split
    · exact h
    · exact pniq_invC1 _ _ (invC1_futEq rfl rfl rfl rfl rfl rfl rfl rfl h)
  | segStarted =>
    simp only [stepSys]
    unfold onStartedSys
    split
    · dsimp only
      split
      · exact preload_invC1 _ (invC1_futEq rfl rfl rfl rfl rfl rfl rfl rfl h)
      · exact invC1_futEq rfl rfl rfl rfl rfl rfl rfl rfl h
    · exact h
  | workerRecv =>
    simp only [stepSys]
    cases hw : s.chanToW with
    | nil => exact h
    | cons m rest =>
      dsimp only
      obtain ⟨hw1, hacc, hsort, hfut, hfub, hemb, hph⟩ := h
      have hcons : futureRids s =
          m.rid :: (List.map WIn.rid rest ++ List.map Req.rid s.svc.requestQueue) := by
        simp [futureRids, hw]
      have hsub : ∀ x ∈ List.map WIn.rid rest ++ List.map Req.rid s.svc.requestQueue,
          x ∈ futureRids s := by
        intro x hx
        rw [hcons]
        exact List.mem_cons_of_mem _ hx
      have htail : List.Pairwise (· < ·)
          (m.rid :: (List.map WIn.rid rest ++ List.map Req.rid s.svc.requestQueue)) := by
        rw [← hcons]; exact hfut
      rcases wrecv_shape { s with chanToW := rest } m with ⟨er, heq⟩ | ⟨hidle, heq⟩
      · rw [heq]
        refine ⟨hw1, ?_, hsort, ?_, ?_, hemb, ?_⟩
        · show s.playedL ++ s.aq.queue ++ chanSegs (s.chanToS ++ [WOut.error er]) =
            s.emitted
          rw [chanSegs_append]
          rw [show chanSegs [WOut.error er] = [] from rfl]
          rw [List.append_nil]
          exact hacc
        · show List.Pairwise (· < ·)
            (List.map WIn.rid rest ++ List.map Req.rid s.svc.requestQueue)
          exact (List.pairwise_cons.mp htail).2
        · show ∀ x ∈ List.map WIn.rid rest ++ List.map Req.rid s.svc.requestQueue,
            x < s.submitN
          intro x hx
          exact hfub x (hsub x hx)
        · show phaseOk s.wrk.phase s.emitted
            (List.map WIn.rid rest ++ List.map Req.rid s.svc.requestQueue) s.submitN
          exact phaseOk_mono hsub hph
      · rw [heq]
        have hidle' : s.wrk.phase = WPhase.idle := hidle
        have hmem : m.rid ∈ futureRids s := by
          rw [hcons]
          exact List.mem_cons_self _ _
        refine ⟨hw1, ?_, hsort, ?_, ?_, hemb, ?_⟩
        · exact hacc
        · show List.Pairwise (· < ·)
            (List.map WIn.rid rest ++ List.map Req.rid s.svc.requestQueue)
          exact (List.pairwise_cons.mp htail).2
        · show ∀ x ∈ List.map WIn.rid rest ++ List.map Req.rid s.svc.requestQueue,
            x < s.submitN
          intro x hx
          exact hfub x (hsub x hx)
        · show phaseOk (WPhase.emitting m.rid m.text 0) s.emitted
            (List.map WIn.rid rest ++ List.map Req.rid s.svc.requestQueue) s.submitN
          rw [hidle'] at hph
          simp only [phaseOk] at hph ⊢
          refine ⟨?_, ?_, ?_⟩
          · intro p hp
            exact Or.inl (hph p hp m.rid hmem)
          · exact (List.pairwise_cons.mp htail).1
          · exact hfub m.rid hmem
  | engineEmit =>
    simp only [stepSys]
    cases hp : s.wrk.phase with
    | idle => exact h
    | finishing rid => exact h
    | emitting rid t k =>
      dsimp only
      obtain ⟨hw1, hacc, hsort, hfut, hfub, hemb, hph⟩ := h
      rw [hp] at hph
      simp only [phaseOk] at hph
      obtain ⟨ha, hb2, hc⟩ := hph
      refine ⟨hw1, ?_, ?_, hfut, hfub, ?_, ?_⟩
      · show s.playedL ++ s.aq.queue ++ chanSegs (s.chanToS ++ [WOut.stream rid k t]) =
          s.emitted ++ [(rid, k)]
        rw [chanSegs_append]
        rw [show chanSegs [WOut.stream rid k t] = [(rid, k)] from rfl]
        rw [← hacc]
        simp [List.append_assoc]
      · rw [List.pairwise_append]
        refine ⟨hsort, by simp, ?_⟩
        intro a hax b hbx
        simp only [List.mem_singleton] at hbx
        rw [hbx]
        exact ha a hax
      · intro p hp2
        rcases List.mem_append.mp hp2 with hp2 | hp2
        · exact hemb p hp2
        · simp only [List.mem_singleton] at hp2
          rw [hp2]
          exact hc
      · show phaseOk (WPhase.emitting rid t (k + 1)) (s.emitted ++ [(rid, k)])
          (futureRids s) s.submitN
        simp only [phaseOk]
        refine ⟨?_, hb2, hc⟩
        intro p hp2
        rcases List.mem_append.mp hp2 with hp2 | hp2
        · rcases ha p hp2 with hlt | ⟨heq2, hlt⟩
          · exact Or.inl hlt
          · exact Or.inr ⟨heq2, Nat.lt_succ_of_lt hlt⟩
        · simp only [List.mem_singleton] at hp2
          rw [hp2]
          exact Or.inr ⟨rfl, Nat.lt_succ_self k⟩
  | engineComplete =>
    simp only [stepSys]
    cases hp : s.wrk.phase with
    | idle => exact h
    | finishing rid => exact h
    | emitting rid t k =>
      dsimp only
      obtain ⟨hw1, hacc, hsort, hfut, hfub, hemb, hph⟩ := h
      rw [hp] at hph
      simp only [phaseOk] at hph
      obtain ⟨ha, hb2, hc⟩ := hph
      refine ⟨hw1, ?_, hsort, hfut, hfub, hemb, ?_⟩
      · show s.playedL ++
          s.aq.queue ++ chanSegs (s.chanToS ++ [WOut.complete (decide (0 < k))]) =
          s.emitted
        rw [chanSegs_append]
        rw [show chanSegs [WOut.complete (decide (0 < k))] = [] from rfl]
        rw [List.append_nil]
        exact hacc
      · show phaseOk (WPhase.finishing rid) s.emitted (futureRids s) s.submitN
        simp only [phaseOk]
        refine ⟨?_, hb2, hc⟩
        intro p hp2
        rcases ha p hp2 with hlt | ⟨heq2, _⟩
        · exact Nat.le_of_lt hlt
        · exact Nat.le_of_eq heq2
  | handlerFinish =>
    simp only [stepSys]
    cases hp : s.wrk.phase with
    | idle => exact h
    | emitting rid t k => exact h
    | finishing rid =>
      dsimp only
      obtain ⟨hw1, hacc, hsort, hfut, hfub, hemb, hph⟩ := h
      rw [hp] at hph
      simp only [phaseOk] at hph
      obtain ⟨ha, hb2, hc⟩ := hph
      refine ⟨hw1, hacc, hsort, hfut, hfub, hemb, ?_⟩
      show phaseOk WPhase.idle s.emitted (futureRids s) s.submitN
      simp only [phaseOk]
      intro p hp2 x hx
      exact Nat.lt_of_le_of_lt (ha p hp2) (hb2 x hx)
  | serviceRecv =>
    simp only [stepSys]
    cases hc : s.chanToS with
    | nil => exact h
    | cons m rest =>
      dsimp only
      obtain ⟨hw1, hacc, hsort, hfut, hfub, hemb, hph⟩ := h
      rw [hc, chanSegs_cons] at hacc
      cases m with
      | device d =>
        unfold recvMsg
        dsimp only
        dsimp only at hacc
        refine ⟨hw1, ?_, hsort, hfut, hfub, hemb, hph⟩
        show s.playedL ++ s.aq.queue ++ chanSegs rest = s.emitted
        simpa using hacc
      | ready vs d =>
        unfold recvMsg
        dsimp only
        dsimp only at hacc
        refine ⟨hw1, ?_, hsort, hfut, hfub, hemb, hph⟩
        show s.playedL ++ s.aq.queue ++ chanSegs rest = s.emitted
        simpa using hacc
      | stream rid idx t =>
        unfold recvMsg
        dsimp only
        dsimp only at hacc
        obtain ⟨po, houts, hqueue⟩ := addToQueue_shape s.aq (rid, idx)
        rw [houts, applyPlayed]
        refine ⟨hw1, ?_, hsort, hfut, hfub, hemb, hph⟩
        show s.playedL ++ po ++ (addToQueue s.aq (rid, idx)).1.queue ++ chanSegs rest =
            s.emitted
        rw [List.append_assoc s.playedL po, hqueue]
        simpa [List.append_assoc] using hacc
      | complete b =>
        unfold recvMsg
        dsimp only
        dsimp only at hacc
        refine pniq_invC1 _ _ ?_
        refine ⟨hw1, ?_, hsort, hfut, hfub, hemb, hph⟩
        show s.playedL ++ s.aq.queue ++ chanSegs rest = s.emitted
        simpa using hacc
      | error e2 =>
        unfold recvMsg
        dsimp only
        dsimp only at hacc
        split
        · refine ⟨hw1, ?_, hsort, hfut, hfub, hemb, hph⟩
          show s.playedL ++ s.aq.queue ++ chanSegs rest = s.emitted
          simpa using hacc
        · refine pniq_invC1 _ _ ?_
          refine ⟨hw1, ?_, hsort, hfut, hfub, hemb, hph⟩
          show s.playedL ++ s.aq.queue ++ chanSegs rest = s.emitted
          simpa using hacc
  | segEnded =>
    simp only [stepSys]
    rcases onEnded_shape s.aq with ⟨po, houts, hqueue⟩ | ⟨houts, hqueue⟩
    · rw [houts, applyPlayed]
      obtain ⟨hw1, hacc, hsort, hfut, hfub, hemb, hph⟩ := h
      refine ⟨hw1, ?_, hsort, hfut, hfub, hemb, hph⟩
      show s.playedL ++ po ++ (onEnded s.aq).1.queue ++ chanSegs s.chanToS = s.emitted
      rw [List.append_assoc s.playedL po, hqueue]
      exact hacc
    · rw [houts]
      refine fireQE_invC1 _ (invC1_futEq ?_ ?_ ?_ ?_ ?_ ?_ ?_ ?_ h)
      · rfl
      · rfl
      · rfl
      · exact hqueue
      · rfl
      · rfl
      · rfl
      · rfl
  | segFailed =>
    simp only [stepSys]
    rcases onFailed_shape s.aq with ⟨po, houts, hqueue⟩ | ⟨houts, hqueue⟩
    · rw [houts, applyPlayed]
      obtain ⟨hw1, hacc, hsort, hfut, hfub, hemb, hph⟩ := h
      refine ⟨hw1, ?_, hsort, hfut, hfub, hemb, hph⟩
      show s.playedL ++ po ++ (onFailed s.aq).1.queue ++ chanSegs s.chanToS = s.emitted
      rw [List.append_assoc s.playedL po, hqueue]
      exact hacc
    · rw [houts]
      refine fireQE_invC1 _ (invC1_futEq ?_ ?_ ?_ ?_ ?_ ?_ ?_ ?_ h)
      · rfl
      · rfl
      · rfl
      · exact hqueue
      · rfl
      · rfl
      · rfl
      · rfl

theorem run_invC1 (evs : List Ev) (h : ∀ e ∈ evs, BenignC1 e) :
    InvC1 (runSys evs) := by
  have main : ∀ (l : List Ev) (s : Sys), InvC1 s →
      (∀ e ∈ l, BenignC1 e) → InvC1 (l.foldl stepSys s) := by
    intro l
    induction l with
    | nil => intro s hs _; exact hs
    | cons e l ih =>
      intro s hs hl
      simp only [List.foldl_cons]
      exact ih _ (step_invC1 s e (hl e (by simp)) hs)
        (fun x hx => hl x (by simp [hx]))
  exact main evs sysInit invC1_init h

/-- **C1.** Playback order equals generation order.  In every run made
only of benign events — no stop, no pause, no play restart and no
terminate, matching the claim's own "unless the session is stopped or the
queue is explicitly cleared" proviso — the sequence of segments that have
played is strictly sorted by the generation order `segLT` (every segment
of request N before any segment of request N+1, and within one request in
the order the engine emitted them), and it is a prefix of the full
emission sequence, so playback is exactly generation order. -/
theorem c1_playback_in_generation_order (evs : List Ev)
    (h : ∀ e ∈ evs, BenignC1 e) :
    List.Pairwise segLT (runSys evs).playedL ∧
    ∃ rest, (runSys evs).playedL ++ rest = (runSys evs).emitted := by
  obtain ⟨_, hacc, hsort, _, _, _, _⟩ := run_invC1 evs h
  refine ⟨?_, ⟨(runSys evs).aq.queue ++ chanSegs (runSys evs).chanToS, ?_⟩⟩
  · have hsub : List.Sublist (runSys evs).playedL (runSys evs).emitted := by
      rw [← hacc]
      exact (List.sublist_append_left _ _).trans (List.sublist_append_left _ _)
    exact List.Pairwise.sublist hsub hsort
  · rw [← List.append_assoc]
    exact hacc

theorem c1_witness :
    (∀ e ∈ c1evs, BenignC1 e) ∧
    (List.Pairwise segLT (runSys c1evs).playedL ∧
     ∃ rest, (runSys c1evs).playedL ++ rest = (runSys c1evs).emitted) :=
  ⟨by decide, c1_playback_in_generation_order c1evs (by decide)⟩

end SE
